import Mathlib

/-!
# Bootstrap launcher (`src/launcher.c`)

A shallow embedding of the single routine `main` of the launcher, and the
properties of its sequence of operating-system calls.

C strings are modelled by their content (the bytes before the terminating NUL),
one `Char` per byte.  Every library call that `main` makes is answered by a
`World`, a record of functions giving the result of each call; `main` returns a
`Run`, which records the calls made in order, how the routine ended, and the
state of the standard-error stream and of the working directory at that point.
-/

namespace Launcher

/-- Content of a NUL-terminated C string, one element per byte. -/
abbrev CStr := List Char

/-- Value of `errno` left behind by a failed library call. -/
abbrev Errno := Nat

/-- What the `stderr` stream of the process is bound to. -/
inductive Stream where
  /-- The stream the process was started with. -/
  | original
  /-- A file opened by `freopen(path, mode, stderr)`. -/
  | file (path : CStr) (mode : CStr)
  /-- No file: `freopen` closes the stream before it tries to open the new file. -/
  | closed
  deriving DecidableEq, Repr

/-- One library call made by `main`, with its arguments. -/
inductive Call where
  | NSGetExecutablePath (bufsize : Nat)
  | realpath (path : CStr)
  | getenv (name : CStr)
  | mkdir (path : CStr) (mode : Nat)
  | freopen (path : CStr) (mode : CStr)
  | chdir (path : CStr)
  | execl (path : CStr) (argv : List CStr)
  /-- Text handed to `stderr` by `fprintf` or `perror`, with the binding of the stream
  then; nothing reaches a file when the stream is closed. -/
  | stderrWrite (stream : Stream) (text : CStr)
  deriving DecidableEq, Repr

/-- The answers of the operating system and the C library to the calls of `main`. -/
structure World where
  /-- Result of `_NSGetExecutablePath(buf, &sz)` for a buffer of `sz` bytes: the raw path, or `none` for a nonzero return. -/
  NSGetExecutablePath : Nat → Option CStr
  /-- Result of `realpath(path, out)`: the canonical path, or the `errno` of a NULL return. -/
  realpath : CStr → Except Errno CStr
  /-- Result of `getenv(name)`: `none` for NULL. -/
  getenv : CStr → Option CStr
  /-- Result of `mkdir(path, mode)`. -/
  mkdir : CStr → Nat → Except Errno Unit
  /-- Result of `freopen(path, mode, stderr)`: `error` for a NULL return. -/
  freopen : CStr → CStr → Except Errno Unit
  /-- Result of `chdir(path)`. -/
  chdir : CStr → Except Errno Unit
  /-- Result of `execl(path, argv..., NULL)`: `ok` when the process image is replaced, `error` when the call returns. -/
  execl : CStr → List CStr → Except Errno Unit
  /-- Text of `strerror(errno)`. -/
  strerror : Errno → CStr

/-- How `main` ends. -/
inductive Outcome where
  /-- The routine executed `return status`. -/
  | returned (status : Int)
  /-- The routine never returned: `execl` replaced the process image. -/
  | replaced
  deriving DecidableEq, Repr

/-- Everything observable about one execution of `main`. -/
structure Run where
  /-- The library calls made, oldest first. -/
  trace : List Call
  outcome : Outcome
  /-- Binding of `stderr` when the routine ended. -/
  stderr : Stream
  /-- Working directory set by a successful `chdir`; `none` while it is the inherited one. -/
  cwd : Option CStr
  deriving DecidableEq, Repr

/-- Result of `snprintf(buf, size, ...)` when the formatted text is `formatted`:
at most `size - 1` bytes are stored. -/
def snprintf (size : Nat) (formatted : CStr) : CStr :=
  formatted.take (size - 1)

/-- Expansion of a `%s` conversion; Darwin prints `(null)` for a NULL argument. -/
def fmtS : Option CStr → CStr
  | some s => s
  | none => "(null)".toList

/-- Text that `perror(s)` writes: `s`, a colon and a blank, the message of `errno`, a newline. -/
def perror (w : World) (s : CStr) (errno : Errno) : CStr :=
  s ++ ": ".toList ++ w.strerror errno ++ "\n".toList

/-- Library function `dirname(3)`: trailing slashes are not counted, the last component
and the slashes before it are removed; `.` when the path is empty or has no slash;
the first byte is never removed.  Its argument in `main` is an answer of `realpath`,
which is shorter than the 1024 bytes at which `dirname` would give up. -/
def dirname (path : CStr) : CStr :=
  match path with
  | [] => ['.']
  | c :: rest =>
    -- strip trailing slashes, then the last component
    let r1 := rest.reverse.dropWhile (fun x => x == '/')
    let r2 := r1.dropWhile (fun x => x != '/')
    match r2 with
    | [] => if c = '/' then ['/'] else ['.']
    | _ :: _ => c :: (r2.dropWhile (fun x => x == '/')).reverse

/-- The routine `main` of `launcher.c`. -/
def main (w : World) : Run :=
  -- char exe[1024]; uint32_t sz = sizeof(exe);
  let sz := 1024
  match w.NSGetExecutablePath sz with
  | none =>
    { trace := [.NSGetExecutablePath sz,
                .stderrWrite .original "launcher: _NSGetExecutablePath failed\n".toList],
      outcome := .returned 1, stderr := .original, cwd := none }
  | some exe =>
  match w.realpath exe with
  | .error e =>
    { trace := [.NSGetExecutablePath sz, .realpath exe,
                .stderrWrite .original (perror w "realpath".toList e)],
      outcome := .returned 1, stderr := .original, cwd := none }
  | .ok resolved =>
  let dir := dirname resolved
  let project := snprintf 1024 (dir ++ "/../../..".toList)
  match w.realpath project with
  | .error e =>
    { trace := [.NSGetExecutablePath sz, .realpath exe, .realpath project,
                .stderrWrite .original (perror w "realpath project".toList e)],
      outcome := .returned 1, stderr := .original, cwd := none }
  | .ok project_real =>
  let home := w.getenv "HOME".toList
  let logdir := snprintf 1024 (fmtS home ++ "/.listen_watch".toList)
  -- mkdir(logdir, 0755): the result is not inspected
  let errlog := snprintf 1024 (logdir ++ "/error.log".toList)
  -- freopen(errlog, "a", stderr): the result is not inspected
  let stderr : Stream :=
    match w.freopen errlog "a".toList with
    | .ok _ => .file errlog "a".toList
    | .error _ => .closed
  -- chdir(project_real): the result is not inspected
  let cwd : Option CStr :=
    match w.chdir project_real with
    | .ok _ => some project_real
    | .error _ => none
  let python := snprintf 1024 (project_real ++ "/.venv/bin/python3".toList)
  let mainpy := snprintf 1024 (project_real ++ "/main.py".toList)
  let calls : List Call :=
    [.NSGetExecutablePath sz, .realpath exe, .realpath project, .getenv "HOME".toList,
     .mkdir logdir 0o755, .freopen errlog "a".toList, .chdir project_real,
     .execl python ["python3".toList, mainpy]]
  match w.execl python ["python3".toList, mainpy] with
  | .ok _ => { trace := calls, outcome := .replaced, stderr := stderr, cwd := cwd }
  | .error e =>
    { trace := calls ++ [.stderrWrite stderr (perror w "execl failed".toList e)],
      outcome := .returned 1, stderr := stderr, cwd := cwd }

/-! ## A file system without symbolic links -/

/-- The pieces of a path between its slashes. -/
def splitSlash : CStr → List CStr
  | [] => [[]]
  | c :: cs =>
    if c = '/' then [] :: splitSlash cs
    else
      match splitSlash cs with
      | [] => [[c]]
      | h :: t => (c :: h) :: t

/-- One step of resolving a path from the root: empty pieces and `.` stay,
`..` goes to the parent (the root is its own parent), a name goes down. -/
def ascend (stack : List CStr) (comp : CStr) : List CStr :=
  if comp = [] ∨ comp = ['.'] then stack
  else if comp = ['.', '.'] then stack.dropLast
  else stack ++ [comp]

/-- Every component preceded by a slash: `P/a/b` for the components of `P` and `a`, `b`. -/
def joinSlash (comps : List CStr) : CStr :=
  (comps.map (fun c => '/' :: c)).flatten

/-- The absolute path with the given components; the root when there is none. -/
def absPath (comps : List CStr) : CStr :=
  if comps = [] then ['/'] else joinSlash comps

/-- What `realpath` returns for an absolute path in a tree that has no symbolic
links and in which every directory named exists. -/
def realpathLexical (p : CStr) : CStr :=
  absPath ((splitSlash p).foldl ascend [])

/-- A path component: not empty, without a slash, neither `.` nor `..`. -/
def IsName (c : CStr) : Prop :=
  c ≠ [] ∧ '/' ∉ c ∧ c ≠ ['.'] ∧ c ≠ ['.', '.']

instance (c : CStr) : Decidable (IsName c) := by
  unfold IsName; infer_instance

/-- A world for examples: the executable is at `exe`, the tree has no symbolic
links, `HOME` is `home`, and the four later calls answer as given. -/
def demoWorld (exe : CStr) (home : Option CStr)
    (mk fr cd ex : Except Errno Unit) : World where
  NSGetExecutablePath := fun sz => if exe.length + 1 ≤ sz then some exe else none
  realpath := fun p => .ok (realpathLexical p)
  getenv := fun n => if n = "HOME".toList then home else none
  mkdir := fun _ _ => mk
  freopen := fun _ _ => fr
  chdir := fun _ => cd
  execl := fun _ _ => ex
  strerror := fun e => if e = 2 then "No such file or directory".toList else "Unknown error".toList

/-! ## Names for the values `main` computes -/

/-- The string `project` built from the canonical executable path. -/
def projectOf (resolved : CStr) : CStr :=
  snprintf 1024 (dirname resolved ++ "/../../..".toList)

/-- The string `python` built from the installation root. -/
def pythonOf (R : CStr) : CStr :=
  snprintf 1024 (R ++ "/.venv/bin/python3".toList)

/-- The string `mainpy` built from the installation root. -/
def mainpyOf (R : CStr) : CStr :=
  snprintf 1024 (R ++ "/main.py".toList)

/-- The string `logdir` built from the value of `HOME`. -/
def logdirOf (home : Option CStr) : CStr :=
  snprintf 1024 (fmtS home ++ "/.listen_watch".toList)

/-- The string `errlog` built from the value of `HOME`. -/
def errlogOf (home : Option CStr) : CStr :=
  snprintf 1024 (logdirOf home ++ "/error.log".toList)

/-- Binding of `stderr` after `freopen(errlog, "a", stderr)`. -/
def stderrAfter (w : World) (errlog : CStr) : Stream :=
  match w.freopen errlog "a".toList with
  | .ok _ => .file errlog "a".toList
  | .error _ => .closed

/-- Working directory after `chdir(R)`. -/
def cwdAfter (w : World) (R : CStr) : Option CStr :=
  match w.chdir R with
  | .ok _ => some R
  | .error _ => none

/-- The three path-resolution steps succeed: the query gives `exe`, its canonical
form is `resolved`, and the second canonicalization gives the installation root `R`. -/
def PathsResolve (w : World) (exe resolved R : CStr) : Prop :=
  w.NSGetExecutablePath 1024 = some exe ∧ w.realpath exe = .ok resolved ∧
    w.realpath (projectOf resolved) = .ok R

/-- The executable-path query fails. -/
def QueryFails (w : World) : Prop :=
  w.NSGetExecutablePath 1024 = none

/-- The canonicalization of the executable path fails. -/
def CanonExeFails (w : World) : Prop :=
  ∃ exe e, w.NSGetExecutablePath 1024 = some exe ∧ w.realpath exe = .error e

/-- The canonicalization of the installation root fails. -/
def CanonRootFails (w : World) : Prop :=
  ∃ exe resolved e, w.NSGetExecutablePath 1024 = some exe ∧ w.realpath exe = .ok resolved ∧
    w.realpath (projectOf resolved) = .error e

/-- The three path-resolution steps succeed and the exec call fails. -/
def ExecFails (w : World) : Prop :=
  ∃ exe resolved R e, PathsResolve w exe resolved R ∧
    w.execl (pythonOf R) ["python3".toList, mainpyOf R] = .error e

/-- Calls that only ask for a path: the executable-path query and the canonicalizations. -/
def Call.isResolution : Call → Bool
  | .NSGetExecutablePath _ => true
  | .realpath _ => true
  | _ => false

/-- Calls that act on the process or the file system: `mkdir`, `freopen`, `chdir`, `execl`. -/
def Call.isEffect : Call → Bool
  | .mkdir _ _ => true
  | .freopen _ _ => true
  | .chdir _ => true
  | .execl _ _ => true
  | _ => false

/-- The `execl` calls. -/
def Call.isExecl : Call → Bool
  | .execl _ _ => true
  | _ => false

/-- The calls of a run up to and including `chdir`, when the paths resolve. -/
def setupCalls (w : World) (exe resolved R : CStr) : List Call :=
  [.NSGetExecutablePath 1024, .realpath exe, .realpath (projectOf resolved),
   .getenv "HOME".toList,
   .mkdir (logdirOf (w.getenv "HOME".toList)) 0o755,
   .freopen (errlogOf (w.getenv "HOME".toList)) "a".toList,
   .chdir R]

/-- The `stderr` writes. -/
def Call.isWrite : Call → Bool
  | .stderrWrite _ _ => true
  | _ => false

/-- The world `w` with the raw executable path reported as `e`. -/
def World.withExecutable (w : World) (e : CStr) : World :=
  { w with NSGetExecutablePath := fun _ => some e }

/-- A world in which the executable-path query fails. -/
def noPathWorld : World :=
  { demoWorld [] none (.ok ()) (.ok ()) (.ok ()) (.ok ()) with
    NSGetExecutablePath := fun _ => none }

/-- The packaged layout of Scenario A with `HOME=/Users/alice`; the four later calls answer as given. -/
def appWorld (mk fr cd ex : Except Errno Unit) : World :=
  demoWorld "/Apps/X.app/Contents/MacOS/X".toList (some "/Users/alice".toList) mk fr cd ex

/-- Components of a directory of 756 bytes. -/
def deepNames : List CStr :=
  List.replicate 3 (List.replicate 251 'a')

/-- An executable path of 1017 bytes whose containing directory has 1015 bytes. -/
def deepExe : CStr :=
  joinSlash (deepNames ++
    [List.replicate 200 'b', "Contents".toList, List.replicate 48 'c', "X".toList])

/-- A tree without symbolic links with the executable at `deepExe`. -/
def deepWorld : World :=
  demoWorld deepExe (some "/Users/alice".toList) (.ok ()) (.ok ()) (.ok ()) (.ok ())

/-- Scenario A with a symbolic link `/usr/local/bin/X` to the executable. -/
def symlinkWorld : World :=
  { appWorld (.ok ()) (.ok ()) (.ok ()) (.ok ()) with
    realpath := fun p =>
      if p = "/usr/local/bin/X".toList then .ok "/Apps/X.app/Contents/MacOS/X".toList
      else .ok (realpathLexical p) }

/-! ## Paths: truncation, `dirname`, and resolution without symbolic links -/

theorem snprintf_fits (s : CStr) (h : s.length ≤ 1023) : snprintf 1024 s = s := by
  unfold snprintf
  exact List.take_of_length_le h

theorem dropWhile_append_all (p : Char → Bool) (l r : CStr) (h : ∀ a ∈ l, p a = true) :
    (l ++ r).dropWhile p = r.dropWhile p := by
  induction l with
  | nil => rfl
  | cons a l ih =>
    have ha : p a = true := h a (List.mem_cons_self a l)
    have hl : ∀ b ∈ l, p b = true := fun b hb => h b (List.mem_cons_of_mem a hb)
    simp [List.dropWhile, ha, ih hl]

theorem splitSlash_append (c X h : CStr) (Y : List CStr) (hc : '/' ∉ c)
    (hX : splitSlash X = h :: Y) : splitSlash (c ++ X) = (c ++ h) :: Y := by
  induction c with
  | nil => simpa using hX
  | cons a c ih =>
    have ha : a ≠ '/' := fun e => hc (e ▸ List.mem_cons_self a c)
    have hc2 : '/' ∉ c := fun m => hc (List.mem_cons_of_mem a m)
    simp [splitSlash, ha, ih hc2]

theorem splitSlash_joinSlash (comps : List CStr) (r : CStr)
    (hn : ∀ n ∈ comps, '/' ∉ n) :
    splitSlash (joinSlash comps ++ '/' :: r) = [] :: (comps ++ splitSlash r) := by
  induction comps with
  | nil => simp [joinSlash, splitSlash]
  | cons c cs ih =>
    have hc : '/' ∉ c := hn c (List.mem_cons_self c cs)
    have hcs : ∀ n ∈ cs, '/' ∉ n := fun n hm => hn n (List.mem_cons_of_mem c hm)
    have e : joinSlash (c :: cs) ++ '/' :: r = '/' :: (c ++ (joinSlash cs ++ '/' :: r)) := by
      simp [joinSlash]
    rw [e]
    have := splitSlash_append c _ _ _ hc (ih hcs)
    simp [splitSlash, this]

theorem foldl_ascend_names (comps s : List CStr) (hn : ∀ n ∈ comps, IsName n) :
    comps.foldl ascend s = s ++ comps := by
  induction comps generalizing s with
  | nil => simp
  | cons c cs ih =>
    have hc : IsName c := hn c (List.mem_cons_self c cs)
    have hcs : ∀ n ∈ cs, IsName n := fun n hm => hn n (List.mem_cons_of_mem c hm)
    obtain ⟨h1, _, h3, h4⟩ := hc
    simp [List.foldl, ascend, h1, h3, h4, ih _ hcs]

theorem realpathLexical_ascent (ps : List CStr) (a b c : CStr)
    (hn : ∀ n ∈ ps ++ [a, b, c], IsName n) :
    realpathLexical (joinSlash (ps ++ [a, b, c]) ++ "/../../..".toList) = absPath ps := by
  have hs : ∀ n ∈ ps ++ [a, b, c], '/' ∉ n := fun n hm => (hn n hm).2.1
  have e : "/../../..".toList = '/' :: "../../..".toList := rfl
  have e2 : splitSlash "../../..".toList = [['.', '.'], ['.', '.'], ['.', '.']] := by decide
  unfold realpathLexical
  rw [e, splitSlash_joinSlash _ _ hs, e2, List.foldl_cons, List.foldl_append,
    foldl_ascend_names _ _ hn]
  simp [ascend]

theorem joinSlash_concat (cs : List CStr) (x : CStr) :
    joinSlash (cs ++ [x]) = joinSlash cs ++ '/' :: x := by
  simp [joinSlash]

theorem joinSlash_last (cs : List CStr) (hne : cs ≠ []) (hn : ∀ n ∈ cs, IsName n) :
    ∃ u y, y ≠ '/' ∧ joinSlash cs = '/' :: (u ++ [y]) := by
  obtain ⟨init, c, rfl⟩ : ∃ init c, cs = init ++ [c] :=
    ⟨cs.dropLast, cs.getLast hne, (List.dropLast_append_getLast hne).symm⟩
  have hc : IsName c := hn c (by simp)
  obtain ⟨c0, y, rfl⟩ : ∃ c0 y, c = c0 ++ [y] :=
    ⟨c.dropLast, c.getLast hc.1, (List.dropLast_append_getLast hc.1).symm⟩
  have hy : y ≠ '/' := fun e => hc.2.1 (by simp [e])
  cases init with
  | nil => exact ⟨c0, y, hy, by simp [joinSlash]⟩
  | cons i0 init => exact ⟨i0 ++ joinSlash init ++ '/' :: c0, y, hy, by simp [joinSlash]⟩

theorem dirname_joinSlash (cs : List CStr) (x : CStr) (hne : cs ≠ [])
    (hn : ∀ n ∈ cs ++ [x], IsName n) :
    dirname (joinSlash (cs ++ [x])) = joinSlash cs := by
  obtain ⟨u, y, hy, hu⟩ := joinSlash_last cs hne (fun n hm => hn n (by simp [hm]))
  have hx : IsName x := hn x (by simp)
  obtain ⟨x0, z, rfl⟩ : ∃ x0 z, x = x0 ++ [z] :=
    ⟨x.dropLast, x.getLast hx.1, (List.dropLast_append_getLast hx.1).symm⟩
  have hz : z ≠ '/' := fun e => hx.2.1 (by simp [e])
  have hx0 : ∀ a ∈ x0.reverse, (a != '/') = true := by
    intro a ha
    have hm : a ∈ x0 := List.mem_reverse.mp ha
    have : a ≠ '/' := fun e => hx.2.1 (by rw [← e]; simp [hm])
    simpa using this
  rw [joinSlash_concat, hu]
  have hrev : (u ++ [y] ++ '/' :: (x0 ++ [z])).reverse =
      z :: (x0.reverse ++ '/' :: y :: u.reverse) := by simp
  have h2 : (x0.reverse ++ '/' :: y :: u.reverse).dropWhile (fun a => a != '/') =
      '/' :: y :: u.reverse := by
    rw [dropWhile_append_all _ _ _ hx0]
    simp [List.dropWhile]
  have hzb : (z == '/') = false := by simpa using hz
  have hyb : (y == '/') = false := by simpa using hy
  have s1 : (z :: (x0.reverse ++ '/' :: y :: u.reverse)).dropWhile (fun a => a == '/') =
      z :: (x0.reverse ++ '/' :: y :: u.reverse) := by
    simp [List.dropWhile, hzb]
  have s2 : (z :: (x0.reverse ++ '/' :: y :: u.reverse)).dropWhile (fun a => a != '/') =
      '/' :: y :: u.reverse := by
    have hzn : (z != '/') = true := by simpa using hz
    simp only [List.dropWhile, hzn]
    exact h2
  have s3 : ('/' :: y :: u.reverse).dropWhile (fun a => a == '/') = y :: u.reverse := by
    simp [List.dropWhile, hyb]
  show dirname ('/' :: (u ++ [y] ++ '/' :: (x0 ++ [z]))) = _
  simp only [dirname, hrev, s1, s2, s3]
  simp


/-! ## The shape of a run -/

theorem main_query_fails (w : World) (h : w.NSGetExecutablePath 1024 = none) :
    main w =
      { trace := [.NSGetExecutablePath 1024,
                  .stderrWrite .original "launcher: _NSGetExecutablePath failed\n".toList],
        outcome := .returned 1, stderr := .original, cwd := none } := by
  simp only [main, h]

theorem main_canon_exe_fails (w : World) (exe : CStr) (e : Errno)
    (h1 : w.NSGetExecutablePath 1024 = some exe) (h2 : w.realpath exe = .error e) :
    main w =
      { trace := [.NSGetExecutablePath 1024, .realpath exe,
                  .stderrWrite .original (perror w "realpath".toList e)],
        outcome := .returned 1, stderr := .original, cwd := none } := by
  simp only [main, h1, h2]

theorem main_canon_root_fails (w : World) (exe resolved : CStr) (e : Errno)
    (h1 : w.NSGetExecutablePath 1024 = some exe) (h2 : w.realpath exe = .ok resolved)
    (h3 : w.realpath (projectOf resolved) = .error e) :
    main w =
      { trace := [.NSGetExecutablePath 1024, .realpath exe, .realpath (projectOf resolved),
                  .stderrWrite .original (perror w "realpath project".toList e)],
        outcome := .returned 1, stderr := .original, cwd := none } := by
  simp only [projectOf] at h3
  simp only [main, h1, h2, h3, projectOf]

theorem main_exec_ok (w : World) (exe resolved R : CStr) (h : PathsResolve w exe resolved R)
    (hx : w.execl (pythonOf R) ["python3".toList, mainpyOf R] = .ok ()) :
    main w =
      { trace := setupCalls w exe resolved R ++
                  [.execl (pythonOf R) ["python3".toList, mainpyOf R]],
        outcome := .replaced,
        stderr := stderrAfter w (errlogOf (w.getenv "HOME".toList)),
        cwd := cwdAfter w R } := by
  obtain ⟨h1, h2, h3⟩ := h
  simp only [projectOf] at h3
  simp only [pythonOf, mainpyOf] at hx
  simp only [main, h1, h2, h3, hx, setupCalls, projectOf, pythonOf, mainpyOf, logdirOf,
    errlogOf, stderrAfter, cwdAfter, List.cons_append, List.nil_append]

theorem main_exec_error (w : World) (exe resolved R : CStr) (e : Errno)
    (h : PathsResolve w exe resolved R)
    (hx : w.execl (pythonOf R) ["python3".toList, mainpyOf R] = .error e) :
    main w =
      { trace := setupCalls w exe resolved R ++
                  [.execl (pythonOf R) ["python3".toList, mainpyOf R],
                   .stderrWrite (stderrAfter w (errlogOf (w.getenv "HOME".toList)))
                     (perror w "execl failed".toList e)],
        outcome := .returned 1,
        stderr := stderrAfter w (errlogOf (w.getenv "HOME".toList)),
        cwd := cwdAfter w R } := by
  obtain ⟨h1, h2, h3⟩ := h
  simp only [projectOf] at h3
  simp only [pythonOf, mainpyOf] at hx
  simp only [main, h1, h2, h3, hx, setupCalls, projectOf, pythonOf, mainpyOf, logdirOf,
    errlogOf, stderrAfter, cwdAfter, List.cons_append, List.nil_append]

/-- Every world falls in exactly one of the five shapes of a run. -/
theorem world_cases (w : World) :
    QueryFails w ∨ CanonExeFails w ∨ CanonRootFails w ∨
      (∃ exe resolved R, PathsResolve w exe resolved R ∧
        w.execl (pythonOf R) ["python3".toList, mainpyOf R] = .ok ()) ∨
      ExecFails w := by
  unfold QueryFails CanonExeFails CanonRootFails ExecFails PathsResolve
  cases h1 : w.NSGetExecutablePath 1024 with
  | none => exact Or.inl rfl
  | some exe =>
    cases h2 : w.realpath exe with
    | error e => exact Or.inr (Or.inl ⟨exe, e, rfl, h2⟩)
    | ok resolved =>
      cases h3 : w.realpath (projectOf resolved) with
      | error e => exact Or.inr (Or.inr (Or.inl ⟨exe, resolved, e, rfl, h2, h3⟩))
      | ok R =>
        cases h4 : w.execl (pythonOf R) ["python3".toList, mainpyOf R] with
        | error e => exact Or.inr (Or.inr (Or.inr (Or.inr ⟨exe, resolved, R, e, ⟨rfl, h2, h3⟩, h4⟩)))
        | ok u => exact Or.inr (Or.inr (Or.inr (Or.inl ⟨exe, resolved, R, ⟨rfl, h2, h3⟩, h4⟩)))

/-- Whether a run returns, and with which status. -/
theorem outcome_of_failure (w : World)
    (h : QueryFails w ∨ CanonExeFails w ∨ CanonRootFails w ∨ ExecFails w) :
    (main w).outcome = .returned 1 := by
  rcases h with h | ⟨exe, e, h1, h2⟩ | ⟨exe, resolved, e, h1, h2, h3⟩ | ⟨exe, resolved, R, e, h, hx⟩
  · rw [main_query_fails w h]
  · rw [main_canon_exe_fails w exe e h1 h2]
  · rw [main_canon_root_fails w exe resolved e h1 h2 h3]
  · rw [main_exec_error w exe resolved R e h hx]

/-! ## The claims -/

/-- C2. `main` returns exactly when the executable-path query, one of the two
canonicalizations or the exec call fails; a returned status is always 1; in every
other case the process image is replaced and `main` does not return. -/
theorem exit_status_contract (w : World) :
    ((∃ s, (main w).outcome = .returned s) ↔
        (QueryFails w ∨ CanonExeFails w ∨ CanonRootFails w ∨ ExecFails w)) ∧
      (∀ s, (main w).outcome = .returned s → s = 1) ∧
      ((main w).outcome = .replaced ↔
        ¬ (QueryFails w ∨ CanonExeFails w ∨ CanonRootFails w ∨ ExecFails w)) := by
  have key : (QueryFails w ∨ CanonExeFails w ∨ CanonRootFails w ∨ ExecFails w) ∨
      (main w).outcome = .replaced := by
    rcases world_cases w with h | h | h | ⟨exe, resolved, R, h, hx⟩ | h
    · exact Or.inl (Or.inl h)
    · exact Or.inl (Or.inr (Or.inl h))
    · exact Or.inl (Or.inr (Or.inr (Or.inl h)))
    · right; rw [main_exec_ok w exe resolved R h hx]
    · exact Or.inl (Or.inr (Or.inr (Or.inr h)))
  refine ⟨⟨?_, ?_⟩, ?_, ⟨?_, ?_⟩⟩
  · rintro ⟨s, hs⟩
    rcases key with h | h
    · exact h
    · rw [h] at hs; cases hs
  · intro h; exact ⟨1, outcome_of_failure w h⟩
  · intro s hs
    rcases key with h | h
    · rw [outcome_of_failure w h] at hs
      injection hs with hs; exact hs.symm
    · rw [h] at hs; cases hs
  · intro h hf
    rw [outcome_of_failure w hf] at h; cases h
  · intro h
    rcases key with hf | hr
    · exact absurd hf h
    · exact hr

/-- C3. When the executable-path query or one of the two canonicalizations fails,
the run makes no `mkdir`, `freopen`, `chdir` or `execl` call; besides the path
queries its only call is one write of the diagnostic to the original standard
error, which stays unredirected; the working directory is unchanged and the
status is 1. -/
theorem fatal_ordering (w : World)
    (h : QueryFails w ∨ CanonExeFails w ∨ CanonRootFails w) :
    (∀ p m, Call.mkdir p m ∉ (main w).trace) ∧
      (∀ p m, Call.freopen p m ∉ (main w).trace) ∧
      (∀ p, Call.chdir p ∉ (main w).trace) ∧
      (∀ p a, Call.execl p a ∉ (main w).trace) ∧
      (∃ text, (main w).trace.filter (fun c => !c.isResolution) =
        [.stderrWrite .original text]) ∧
      (main w).stderr = .original ∧ (main w).cwd = none ∧
      (main w).outcome = .returned 1 := by
  rcases h with h | ⟨exe, e, h1, h2⟩ | ⟨exe, resolved, e, h1, h2, h3⟩
  · rw [main_query_fails w h]
    simp [Call.isResolution]
  · rw [main_canon_exe_fails w exe e h1 h2]
    simp [Call.isResolution]
  · rw [main_canon_root_fails w exe resolved e h1 h2 h3]
    simp [Call.isResolution]

/-- C3, at a world whose executable-path query fails. -/
theorem fatal_ordering_witness :
    QueryFails noPathWorld ∧
      (∀ p m, Call.mkdir p m ∉ (main noPathWorld).trace) ∧
      (∀ p m, Call.freopen p m ∉ (main noPathWorld).trace) ∧
      (∀ p, Call.chdir p ∉ (main noPathWorld).trace) ∧
      (∀ p a, Call.execl p a ∉ (main noPathWorld).trace) ∧
      (∃ text, (main noPathWorld).trace.filter (fun c => !c.isResolution) =
        [.stderrWrite .original text]) ∧
      (main noPathWorld).stderr = .original ∧ (main noPathWorld).cwd = none ∧
      (main noPathWorld).outcome = .returned 1 :=
  ⟨rfl, fatal_ordering noPathWorld (Or.inl rfl)⟩

/-- The paths of Scenario A resolve, whatever the later calls answer. -/
theorem appWorld_resolves (mk fr cd ex : Except Errno Unit) :
    PathsResolve (appWorld mk fr cd ex) "/Apps/X.app/Contents/MacOS/X".toList
      "/Apps/X.app/Contents/MacOS/X".toList "/Apps".toList :=
  ⟨rfl, rfl, rfl⟩

/-- C6. When the three path-resolution steps succeed, the run makes exactly one
`execl` call, with the program path and the arguments built from the installation
root alone; a world that differs in the answers of `getenv`, `mkdir`, `freopen`
and `chdir` in any way makes the same `execl` call. -/
theorem logging_and_chdir_nonfatal (w w2 : World) (exe resolved R : CStr)
    (h : PathsResolve w exe resolved R)
    (hq : w2.NSGetExecutablePath = w.NSGetExecutablePath)
    (hr : w2.realpath = w.realpath) :
    (main w).trace.filter Call.isExecl =
        [.execl (pythonOf R) ["python3".toList, mainpyOf R]] ∧
      (main w2).trace.filter Call.isExecl = (main w).trace.filter Call.isExecl := by
  have shape : ∀ v : World, PathsResolve v exe resolved R →
      (main v).trace.filter Call.isExecl =
        [.execl (pythonOf R) ["python3".toList, mainpyOf R]] := by
    intro v hv
    cases hx : v.execl (pythonOf R) ["python3".toList, mainpyOf R] with
    | error e =>
      rw [main_exec_error v exe resolved R e hv hx]
      simp [setupCalls, Call.isExecl]
    | ok u =>
      rw [main_exec_ok v exe resolved R hv hx]
      simp [setupCalls, Call.isExecl]
  have h2 : PathsResolve w2 exe resolved R := by
    unfold PathsResolve at h ⊢
    rw [hq, hr]; exact h
  rw [shape w h, shape w2 h2]
  exact ⟨rfl, rfl⟩

/-- C6, comparing a world in which `mkdir`, `freopen` and `chdir` all fail with
the world in which all three succeed. -/
theorem logging_and_chdir_nonfatal_witness :
    (main (appWorld (.error 13) (.error 13) (.error 2) (.ok ()))).trace.filter Call.isExecl =
        [.execl "/Apps/.venv/bin/python3".toList ["python3".toList, "/Apps/main.py".toList]] ∧
      (main (appWorld (.ok ()) (.ok ()) (.ok ()) (.ok ()))).trace.filter Call.isExecl =
        (main (appWorld (.error 13) (.error 13) (.error 2) (.ok ()))).trace.filter
          Call.isExecl :=
  logging_and_chdir_nonfatal (appWorld (.error 13) (.error 13) (.error 2) (.ok ()))
    (appWorld (.ok ()) (.ok ()) (.ok ()) (.ok ())) _ _ _ (appWorld_resolves _ _ _ _) rfl rfl

/-- C8, as stated, fails: in Scenario A with a failing `chdir` and a working
interpreter the run calls `chdir`, the call fails, and nothing at all is written
to `stderr`. -/
theorem chdir_failure_logged_counterexample :
    PathsResolve (appWorld (.ok ()) (.ok ()) (.error 2) (.ok ()))
        "/Apps/X.app/Contents/MacOS/X".toList "/Apps/X.app/Contents/MacOS/X".toList
        "/Apps".toList ∧
      (appWorld (.ok ()) (.ok ()) (.error 2) (.ok ())).chdir "/Apps".toList = .error 2 ∧
      Call.chdir "/Apps".toList ∈ (main (appWorld (.ok ()) (.ok ()) (.error 2) (.ok ()))).trace ∧
      (main (appWorld (.ok ()) (.ok ()) (.error 2) (.ok ()))).trace.filter Call.isWrite = [] ∧
      (main (appWorld (.ok ()) (.ok ()) (.error 2) (.ok ()))).outcome = .replaced := by
  refine ⟨appWorld_resolves _ _ _ _, rfl, ?_, ?_, ?_⟩
  · rw [main_exec_ok _ _ _ _ (appWorld_resolves _ _ _ _) rfl]
    simp [setupCalls]
  · rw [main_exec_ok _ _ _ _ (appWorld_resolves _ _ _ _) rfl]
    simp [setupCalls, Call.isWrite]
  · rw [main_exec_ok _ _ _ _ (appWorld_resolves _ _ _ _) rfl]

/-- C8, amended. When `chdir` to the installation root fails, nothing is written
about it: no call before `chdir` writes to `stderr`, the call that follows
`chdir` is the `execl` of the handoff, the working directory stays the inherited
one, and the only text the run can write afterwards is that of
`perror("execl failed")`. -/
theorem chdir_failure_silent (w : World) (exe resolved R : CStr) (e : Errno)
    (h : PathsResolve w exe resolved R) (hc : w.chdir R = .error e) :
    ∃ before after,
      (main w).trace =
          before ++ [.chdir R, .execl (pythonOf R) ["python3".toList, mainpyOf R]] ++ after ∧
        before.filter Call.isWrite = [] ∧
        (∀ c ∈ after, ∃ s x, c = .stderrWrite s
          ("execl failed".toList ++ ": ".toList ++ w.strerror x ++ "\n".toList)) ∧
        (main w).cwd = none := by
  have hcwd : cwdAfter w R = none := by
    unfold cwdAfter; rw [hc]
  cases hx : w.execl (pythonOf R) ["python3".toList, mainpyOf R] with
  | error x =>
    rw [main_exec_error w exe resolved R x h hx]
    refine ⟨(setupCalls w exe resolved R).dropLast, [.stderrWrite
      (stderrAfter w (errlogOf (w.getenv "HOME".toList))) (perror w "execl failed".toList x)],
      ?_, ?_, ?_, hcwd⟩
    · simp [setupCalls]
    · simp [setupCalls, Call.isWrite]
    · intro c hcm
      rw [List.mem_singleton] at hcm
      exact ⟨stderrAfter w (errlogOf (w.getenv "HOME".toList)), x, hcm⟩
  | ok u =>
    rw [main_exec_ok w exe resolved R h hx]
    refine ⟨(setupCalls w exe resolved R).dropLast, [], ?_, ?_, ?_, hcwd⟩
    · simp [setupCalls]
    · simp [setupCalls, Call.isWrite]
    · intro c hcm; cases hcm

/-- C8 amended, in Scenario A with a failing `chdir`. -/
theorem chdir_failure_silent_witness :
    ∃ before after,
      (main (appWorld (.ok ()) (.ok ()) (.error 2) (.error 2))).trace =
          before ++ [.chdir "/Apps".toList,
            .execl (pythonOf "/Apps".toList) ["python3".toList, mainpyOf "/Apps".toList]] ++
            after ∧
        before.filter Call.isWrite = [] ∧
        (∀ c ∈ after, ∃ s x, c = .stderrWrite s
          ("execl failed".toList ++ ": ".toList ++
            (appWorld (.ok ()) (.ok ()) (.error 2) (.error 2)).strerror x ++ "\n".toList)) ∧
        (main (appWorld (.ok ()) (.ok ()) (.error 2) (.error 2))).cwd = none :=
  chdir_failure_silent (appWorld (.ok ()) (.ok ()) (.error 2) (.error 2)) _ _ _ 2
    (appWorld_resolves _ _ _ _) rfl

/-- C9. When the three path-resolution steps succeed, the calls of the run are,
in this order: the three path queries, `getenv("HOME")`, `mkdir` of the log
directory with mode 0755 (7, 5, 5 in octal), `freopen` of the log file in mode
`a`, `chdir` to the installation root, `execl` of the interpreter, and nothing
else but the diagnostic write that follows a failed `execl`.  Each of `mkdir`,
`freopen`, `chdir` and `execl` is called exactly once. -/
theorem effect_order (w : World) (exe resolved R : CStr)
    (h : PathsResolve w exe resolved R) :
    (main w).trace.filter Call.isEffect =
        [.mkdir (logdirOf (w.getenv "HOME".toList)) (7 * 64 + 5 * 8 + 5),
         .freopen (errlogOf (w.getenv "HOME".toList)) "a".toList,
         .chdir R,
         .execl (pythonOf R) ["python3".toList, mainpyOf R]] ∧
      ∃ diag,
        (main w).trace =
            [.NSGetExecutablePath 1024, .realpath exe, .realpath (projectOf resolved),
             .getenv "HOME".toList,
             .mkdir (logdirOf (w.getenv "HOME".toList)) (7 * 64 + 5 * 8 + 5),
             .freopen (errlogOf (w.getenv "HOME".toList)) "a".toList,
             .chdir R,
             .execl (pythonOf R) ["python3".toList, mainpyOf R]] ++ diag ∧
          diag.length ≤ 1 ∧ (∀ c ∈ diag, c.isWrite = true) ∧
          (diag = [] ↔ (main w).outcome = .replaced) := by
  cases hx : w.execl (pythonOf R) ["python3".toList, mainpyOf R] with
  | error x =>
    rw [main_exec_error w exe resolved R x h hx]
    refine ⟨by simp [setupCalls, Call.isEffect], [.stderrWrite
      (stderrAfter w (errlogOf (w.getenv "HOME".toList))) (perror w "execl failed".toList x)],
      by simp [setupCalls], by simp, by simp [Call.isWrite], by simp⟩
  | ok u =>
    rw [main_exec_ok w exe resolved R h hx]
    exact ⟨by simp [setupCalls, Call.isEffect], [], by simp [setupCalls], by simp, by simp,
      by simp⟩

/-- C9, in Scenario A with every call succeeding. -/
theorem effect_order_witness :
    (main (appWorld (.ok ()) (.ok ()) (.ok ()) (.ok ()))).trace.filter Call.isEffect =
        [.mkdir (logdirOf ((appWorld (.ok ()) (.ok ()) (.ok ()) (.ok ())).getenv "HOME".toList))
            (7 * 64 + 5 * 8 + 5),
         .freopen (errlogOf ((appWorld (.ok ()) (.ok ()) (.ok ()) (.ok ())).getenv "HOME".toList))
            "a".toList,
         .chdir "/Apps".toList,
         .execl (pythonOf "/Apps".toList) ["python3".toList, mainpyOf "/Apps".toList]] ∧
      ∃ diag,
        (main (appWorld (.ok ()) (.ok ()) (.ok ()) (.ok ()))).trace =
            [.NSGetExecutablePath 1024, .realpath "/Apps/X.app/Contents/MacOS/X".toList,
             .realpath (projectOf "/Apps/X.app/Contents/MacOS/X".toList),
             .getenv "HOME".toList,
             .mkdir (logdirOf ((appWorld (.ok ()) (.ok ()) (.ok ()) (.ok ())).getenv
                "HOME".toList)) (7 * 64 + 5 * 8 + 5),
             .freopen (errlogOf ((appWorld (.ok ()) (.ok ()) (.ok ()) (.ok ())).getenv
                "HOME".toList)) "a".toList,
             .chdir "/Apps".toList,
             .execl (pythonOf "/Apps".toList) ["python3".toList, mainpyOf "/Apps".toList]] ++
              diag ∧
          diag.length ≤ 1 ∧ (∀ c ∈ diag, c.isWrite = true) ∧
          (diag = [] ↔ (main (appWorld (.ok ()) (.ok ()) (.ok ()) (.ok ()))).outcome = .replaced) :=
  effect_order (appWorld (.ok ()) (.ok ()) (.ok ()) (.ok ())) _ _ _ (appWorld_resolves _ _ _ _)

/-- C10. Two raw executable paths with the same canonical form, all other
answers being equal, give runs that differ only in the argument of the first
canonicalization: the same installation root, the same later calls with the
same arguments (second canonicalization, log paths, `chdir`, `execl`), the same
working directory, `stderr` binding and outcome. -/
theorem canonicalization_closes_symlinks (w : World) (e1 e2 c : CStr)
    (h1 : w.realpath e1 = .ok c) (h2 : w.realpath e2 = .ok c) :
    (main (w.withExecutable e1)).trace.take 2 = [.NSGetExecutablePath 1024, .realpath e1] ∧
      (main (w.withExecutable e2)).trace.take 2 = [.NSGetExecutablePath 1024, .realpath e2] ∧
      (main (w.withExecutable e1)).trace.drop 2 = (main (w.withExecutable e2)).trace.drop 2 ∧
      (∀ R, PathsResolve (w.withExecutable e1) e1 c R ↔
        PathsResolve (w.withExecutable e2) e2 c R) ∧
      (main (w.withExecutable e1)).cwd = (main (w.withExecutable e2)).cwd ∧
      (main (w.withExecutable e1)).stderr = (main (w.withExecutable e2)).stderr ∧
      (main (w.withExecutable e1)).outcome = (main (w.withExecutable e2)).outcome := by
  have hres : ∀ R, PathsResolve (w.withExecutable e1) e1 c R ↔
      PathsResolve (w.withExecutable e2) e2 c R := by
    intro R
    constructor
    · rintro ⟨_, _, h3⟩; exact ⟨rfl, h2, h3⟩
    · rintro ⟨_, _, h3⟩; exact ⟨rfl, h1, h3⟩
  cases h3 : w.realpath (projectOf c) with
  | error x =>
    rw [main_canon_root_fails (w.withExecutable e1) e1 c x rfl h1 h3,
      main_canon_root_fails (w.withExecutable e2) e2 c x rfl h2 h3]
    exact ⟨rfl, rfl, rfl, hres, rfl, rfl, rfl⟩
  | ok R =>
    have p1 : PathsResolve (w.withExecutable e1) e1 c R := ⟨rfl, h1, h3⟩
    have p2 : PathsResolve (w.withExecutable e2) e2 c R := ⟨rfl, h2, h3⟩
    cases hx : w.execl (pythonOf R) ["python3".toList, mainpyOf R] with
    | error x =>
      rw [main_exec_error (w.withExecutable e1) e1 c R x p1 hx,
        main_exec_error (w.withExecutable e2) e2 c R x p2 hx]
      exact ⟨rfl, rfl, rfl, hres, rfl, rfl, rfl⟩
    | ok u =>
      rw [main_exec_ok (w.withExecutable e1) e1 c R p1 hx,
        main_exec_ok (w.withExecutable e2) e2 c R p2 hx]
      exact ⟨rfl, rfl, rfl, hres, rfl, rfl, rfl⟩

/-- C10, for a symbolic link `/usr/local/bin/X` to the executable of Scenario A. -/
theorem canonicalization_closes_symlinks_witness :
    (main (symlinkWorld.withExecutable "/usr/local/bin/X".toList)).trace.take 2 =
        [.NSGetExecutablePath 1024, .realpath "/usr/local/bin/X".toList] ∧
      (main (symlinkWorld.withExecutable "/Apps/X.app/Contents/MacOS/X".toList)).trace.take 2 =
        [.NSGetExecutablePath 1024, .realpath "/Apps/X.app/Contents/MacOS/X".toList] ∧
      (main (symlinkWorld.withExecutable "/usr/local/bin/X".toList)).trace.drop 2 =
        (main (symlinkWorld.withExecutable "/Apps/X.app/Contents/MacOS/X".toList)).trace.drop 2 ∧
      (∀ R, PathsResolve (symlinkWorld.withExecutable "/usr/local/bin/X".toList)
          "/usr/local/bin/X".toList "/Apps/X.app/Contents/MacOS/X".toList R ↔
        PathsResolve (symlinkWorld.withExecutable "/Apps/X.app/Contents/MacOS/X".toList)
          "/Apps/X.app/Contents/MacOS/X".toList "/Apps/X.app/Contents/MacOS/X".toList R) ∧
      (main (symlinkWorld.withExecutable "/usr/local/bin/X".toList)).cwd =
        (main (symlinkWorld.withExecutable "/Apps/X.app/Contents/MacOS/X".toList)).cwd ∧
      (main (symlinkWorld.withExecutable "/usr/local/bin/X".toList)).stderr =
        (main (symlinkWorld.withExecutable "/Apps/X.app/Contents/MacOS/X".toList)).stderr ∧
      (main (symlinkWorld.withExecutable "/usr/local/bin/X".toList)).outcome =
        (main (symlinkWorld.withExecutable "/Apps/X.app/Contents/MacOS/X".toList)).outcome :=
  canonicalization_closes_symlinks symlinkWorld "/usr/local/bin/X".toList
    "/Apps/X.app/Contents/MacOS/X".toList "/Apps/X.app/Contents/MacOS/X".toList rfl rfl

/-- C5. When `HOME` is set to `h` and `h` has at most 999 bytes, every `mkdir`
call of the run has the path `h ++ "/.listen_watch"` and every `freopen` call
the path `h ++ "/.listen_watch/error.log"`; when the three path-resolution
steps succeed both calls are made, with mode 0755 and mode `a`. -/
theorem log_path_construction (w : World) (h : CStr)
    (hh : w.getenv "HOME".toList = some h) (hlen : h.length + 24 ≤ 1023) :
    (∀ p m, Call.mkdir p m ∈ (main w).trace → p = h ++ "/.listen_watch".toList) ∧
      (∀ p m, Call.freopen p m ∈ (main w).trace →
        p = h ++ "/.listen_watch/error.log".toList) ∧
      (∀ exe resolved R, PathsResolve w exe resolved R →
        Call.mkdir (h ++ "/.listen_watch".toList) 0o755 ∈ (main w).trace ∧
        Call.freopen (h ++ "/.listen_watch/error.log".toList) "a".toList ∈
          (main w).trace) := by
  have hl : logdirOf (w.getenv "HOME".toList) = h ++ "/.listen_watch".toList := by
    rw [hh]
    apply snprintf_fits
    have : "/.listen_watch".toList.length = 14 := rfl
    show (h ++ "/.listen_watch".toList).length ≤ 1023
    rw [List.length_append, this]; omega
  have he : errlogOf (w.getenv "HOME".toList) = h ++ "/.listen_watch/error.log".toList := by
    unfold errlogOf
    rw [hl]
    have e : h ++ "/.listen_watch".toList ++ "/error.log".toList =
        h ++ "/.listen_watch/error.log".toList := by
      rw [List.append_assoc]; rfl
    rw [e]
    apply snprintf_fits
    have : "/.listen_watch/error.log".toList.length = 24 := rfl
    rw [List.length_append, this]; exact hlen
  have ok : ∀ exe resolved R, PathsResolve w exe resolved R →
      (∀ p m, Call.mkdir p m ∈ (main w).trace → p = h ++ "/.listen_watch".toList) ∧
      (∀ p m, Call.freopen p m ∈ (main w).trace →
        p = h ++ "/.listen_watch/error.log".toList) ∧
      Call.mkdir (h ++ "/.listen_watch".toList) 0o755 ∈ (main w).trace ∧
      Call.freopen (h ++ "/.listen_watch/error.log".toList) "a".toList ∈ (main w).trace := by
    intro exe resolved R hr
    cases hx : w.execl (pythonOf R) ["python3".toList, mainpyOf R] with
    | error e =>
      rw [main_exec_error w exe resolved R e hr hx]
      unfold setupCalls
      rw [hl, he]
      simp
    | ok u =>
      rw [main_exec_ok w exe resolved R hr hx]
      unfold setupCalls
      rw [hl, he]
      simp
  rcases world_cases w with hf | ⟨exe, e, h1, h2⟩ | ⟨exe, resolved, e, h1, h2, h3⟩ |
      ⟨exe, resolved, R, hr, _⟩ | ⟨exe, resolved, R, _, hr, _⟩
  · refine ⟨?_, ?_, fun exe resolved R hr => ?_⟩
    · rw [main_query_fails w hf]; simp
    · rw [main_query_fails w hf]; simp
    · exact (ok exe resolved R hr).2.2
  · refine ⟨?_, ?_, fun exe2 resolved R hr => ?_⟩
    · rw [main_canon_exe_fails w exe e h1 h2]; simp
    · rw [main_canon_exe_fails w exe e h1 h2]; simp
    · exact (ok exe2 resolved R hr).2.2
  · refine ⟨?_, ?_, fun exe2 resolved2 R hr => ?_⟩
    · rw [main_canon_root_fails w exe resolved e h1 h2 h3]; simp
    · rw [main_canon_root_fails w exe resolved e h1 h2 h3]; simp
    · exact (ok exe2 resolved2 R hr).2.2
  · exact ⟨(ok exe resolved R hr).1, (ok exe resolved R hr).2.1,
      fun exe2 resolved2 R2 hr2 => (ok exe2 resolved2 R2 hr2).2.2⟩
  · exact ⟨(ok exe resolved R hr).1, (ok exe resolved R hr).2.1,
      fun exe2 resolved2 R2 hr2 => (ok exe2 resolved2 R2 hr2).2.2⟩

/-- C5, for `HOME=/Users/alice` (Scenario B). -/
theorem log_path_construction_witness :
    (∀ p m, Call.mkdir p m ∈ (main (appWorld (.ok ()) (.ok ()) (.ok ()) (.ok ()))).trace →
        p = "/Users/alice/.listen_watch".toList) ∧
      (∀ p m, Call.freopen p m ∈ (main (appWorld (.ok ()) (.ok ()) (.ok ()) (.ok ()))).trace →
        p = "/Users/alice/.listen_watch/error.log".toList) ∧
      (∀ exe resolved R, PathsResolve (appWorld (.ok ()) (.ok ()) (.ok ()) (.ok ())) exe resolved R →
        Call.mkdir "/Users/alice/.listen_watch".toList 0o755 ∈
          (main (appWorld (.ok ()) (.ok ()) (.ok ()) (.ok ()))).trace ∧
        Call.freopen "/Users/alice/.listen_watch/error.log".toList "a".toList ∈
          (main (appWorld (.ok ()) (.ok ()) (.ok ()) (.ok ()))).trace) :=
  log_path_construction (appWorld (.ok ()) (.ok ()) (.ok ()) (.ok ())) "/Users/alice".toList
    rfl (by decide)

set_option maxRecDepth 1000000 in
/-- C4, as stated, fails: `deepExe` is a canonical path of 1017 bytes made of
names only, in a tree without symbolic links; its directory has 1015 bytes, so
`snprintf` drops the last byte of the text `dirname ++ "/../../.."`, the second
canonicalization receives `dirname ++ "/../../."`, and the installation root is
the directory two levels up, not three. -/
theorem installation_root_derivation_counterexample :
    (∀ n ∈ deepNames ++
        [List.replicate 200 'b', "Contents".toList, List.replicate 48 'c', "X".toList],
        IsName n) ∧
      deepWorld.NSGetExecutablePath 1024 = some deepExe ∧
      deepWorld.realpath deepExe = .ok deepExe ∧
      (dirname deepExe).length = 1015 ∧
      (main deepWorld).trace[2]? =
        some (.realpath (dirname deepExe ++ "/../../.".toList)) ∧
      (main deepWorld).trace[2]? ≠
        some (.realpath (dirname deepExe ++ "/../../..".toList)) ∧
      Call.chdir (joinSlash (deepNames ++ [List.replicate 200 'b'])) ∈ (main deepWorld).trace ∧
      Call.chdir (joinSlash deepNames) ∉ (main deepWorld).trace :=
  ⟨by decide, by decide, congrArg Except.ok (by decide), by decide, by decide, by decide,
    by decide, by decide⟩

/-- C4, amended. Let the canonical executable path be `P/a/b/c/x`, made of
names only, with a containing directory of at most 1014 bytes, and let the
second canonicalization answer as in a tree without symbolic links.  Then
`dirname` gives `P/a/b/c`, the string passed to the second canonicalization is
`dirname(path) ++ "/../../.."`, and the installation root, to which the run
changes directory, is `P` (the root directory when `P` is empty). -/
theorem installation_root_derivation (w : World) (exe : CStr) (ps : List CStr)
    (a b c x : CStr)
    (hn : ∀ n ∈ ps ++ [a, b, c, x], IsName n)
    (hq : w.NSGetExecutablePath 1024 = some exe)
    (hc : w.realpath exe = .ok (joinSlash (ps ++ [a, b, c, x])))
    (hlen : (dirname (joinSlash (ps ++ [a, b, c, x]))).length + 9 ≤ 1023)
    (hfs : w.realpath (dirname (joinSlash (ps ++ [a, b, c, x])) ++ "/../../..".toList) =
      .ok (realpathLexical (dirname (joinSlash (ps ++ [a, b, c, x])) ++ "/../../..".toList))) :
    dirname (joinSlash (ps ++ [a, b, c, x])) = joinSlash (ps ++ [a, b, c]) ∧
      (main w).trace[2]? =
        some (.realpath (dirname (joinSlash (ps ++ [a, b, c, x])) ++ "/../../..".toList)) ∧
      PathsResolve w exe (joinSlash (ps ++ [a, b, c, x])) (absPath ps) ∧
      Call.chdir (absPath ps) ∈ (main w).trace ∧
      (ps ≠ [] → absPath ps = joinSlash ps) := by
  have hsplit : ps ++ [a, b, c, x] = (ps ++ [a, b, c]) ++ [x] := by simp
  have hn3 : ∀ n ∈ ps ++ [a, b, c], IsName n := by
    intro n hm
    apply hn n
    rw [hsplit]
    exact List.mem_append_left _ hm
  have hd : dirname (joinSlash (ps ++ [a, b, c, x])) = joinSlash (ps ++ [a, b, c]) := by
    rw [hsplit]
    exact dirname_joinSlash (ps ++ [a, b, c]) x (by simp) (by rw [← hsplit]; exact hn)
  have hproj : projectOf (joinSlash (ps ++ [a, b, c, x])) =
      dirname (joinSlash (ps ++ [a, b, c, x])) ++ "/../../..".toList := by
    apply snprintf_fits
    have : "/../../..".toList.length = 9 := rfl
    rw [List.length_append, this]; exact hlen
  have hroot : realpathLexical
      (dirname (joinSlash (ps ++ [a, b, c, x])) ++ "/../../..".toList) = absPath ps := by
    rw [hd]; exact realpathLexical_ascent ps a b c hn3
  have hres : PathsResolve w exe (joinSlash (ps ++ [a, b, c, x])) (absPath ps) :=
    ⟨hq, hc, by rw [hproj, hfs, hroot]⟩
  refine ⟨hd, ?_, hres, ?_, ?_⟩
  · cases hx : w.execl (pythonOf (absPath ps)) ["python3".toList, mainpyOf (absPath ps)] with
    | error e =>
      rw [main_exec_error w exe _ _ e hres hx, ← hproj]; rfl
    | ok u =>
      rw [main_exec_ok w exe _ _ hres hx, ← hproj]; rfl
  · cases hx : w.execl (pythonOf (absPath ps)) ["python3".toList, mainpyOf (absPath ps)] with
    | error e =>
      rw [main_exec_error w exe _ _ e hres hx]; simp [setupCalls]
    | ok u =>
      rw [main_exec_ok w exe _ _ hres hx]; simp [setupCalls]
  · intro hne
    simp [absPath, hne]

/-- C4 amended, for the executable `/Apps/X.app/Contents/MacOS/X` of Scenario A:
the installation root is `/Apps`. -/
theorem installation_root_derivation_witness :
    dirname "/Apps/X.app/Contents/MacOS/X".toList = "/Apps/X.app/Contents/MacOS".toList ∧
      (main (appWorld (.ok ()) (.ok ()) (.ok ()) (.ok ()))).trace[2]? =
        some (.realpath "/Apps/X.app/Contents/MacOS/../../..".toList) ∧
      PathsResolve (appWorld (.ok ()) (.ok ()) (.ok ()) (.ok ()))
        "/Apps/X.app/Contents/MacOS/X".toList "/Apps/X.app/Contents/MacOS/X".toList
        "/Apps".toList ∧
      Call.chdir "/Apps".toList ∈ (main (appWorld (.ok ()) (.ok ()) (.ok ()) (.ok ()))).trace ∧
      (["Apps".toList] ≠ [] → absPath ["Apps".toList] = joinSlash ["Apps".toList]) :=
  installation_root_derivation (appWorld (.ok ()) (.ok ()) (.ok ()) (.ok ()))
    "/Apps/X.app/Contents/MacOS/X".toList ["Apps".toList]
    "X.app".toList "Contents".toList "MacOS".toList "X".toList
    (by decide) rfl rfl (by decide) rfl

end Launcher
